import Mathlib

/-!
Verification development for the SegFormer fine-tuning notebook
(`SegFormer_Segmentation_Training.ipynb`): a shallow embedding of the
dataset adapter, batch loader, learning-rate schedule, and the
training/validation driver loop, with theorems settling the spec claims.
-/

namespace SegTrain

/-! ## Tensors

A tensor is modelled by its dimension list (shape) and flat contents.
Only shape and identity of contents matter for the claims here. -/

structure Tensor where
  shape : List Nat
  data : List Int
deriving DecidableEq

/-- Embedding of `torch.Tensor.squeeze()` with no dimension argument:
it removes every dimension of size 1 from the shape; the flat contents
are unchanged. -/
def Tensor.squeeze (t : Tensor) : Tensor :=
  { shape := t.shape.filter (fun d => d != 1), data := t.data }

/-! ## Dataset adapter (`SegmentationDataset`) -/

/-- A raw dataset item: an image and its segmentation mask, as in
`item['image']` / `item['segmentation_mask']`. -/
structure Sample where
  image : Tensor
  segmentation_mask : Tensor
deriving DecidableEq

/-- Modelled from the spec: the external image/mask encoder
(`SegformerImageProcessor`) returns, for one sample, a mapping of named
tensors whose key set is fixed by the encoder configuration
(not by the data at the index). -/
structure Processor where
  keys : List String
  encodeTensor : Sample → String → Tensor

/-- The mapping `processor(image, mask, return_tensors="pt")` returns:
one named tensor per configured key. -/
def Processor.encode (p : Processor) (s : Sample) : List (String × Tensor) :=
  p.keys.map (fun k => (k, p.encodeTensor s k))

/-- Embedding of the notebook class `SegmentationDataset(Dataset)`:
it wraps a raw huggingface dataset slice and a processor. -/
structure SegmentationDataset where
  ds : List Sample
  processor : Processor

/-- `__len__`: the count of underlying raw samples. -/
def SegmentationDataset.size (d : SegmentationDataset) : Nat := d.ds.length

/-- `__getitem__`: fetch the raw pair at `idx`, encode it with the
processor, and return the mapping with every tensor squeezed
(the dict comprehension `{k: v.squeeze() for k, v in encoded.items()}`).
Out-of-range access is `none` (IndexError). -/
def SegmentationDataset.getitem (d : SegmentationDataset) (idx : Nat) :
    Option (List (String × Tensor)) :=
  match d.ds[idx]? with
  | none => none
  | some item => some ((d.processor.encode item).map (fun kv => (kv.1, kv.2.squeeze)))

/-! ## Batch loader

Modelled from the spec: the external `DataLoader` (with the default
`drop_last=False`) visits the sample indices in some order and groups
them into consecutive chunks of the configured batch size; the final
chunk may be smaller.  `chunks B l` is that grouping. -/

def chunksAux (B : Nat) : Nat → List α → List (List α)
  | _, [] => []
  | 0, _ :: _ => []
  | fuel + 1, a :: t =>
    if B = 0 then []
    else (a :: t).take B :: chunksAux B fuel ((a :: t).drop B)

def chunks (B : Nat) (l : List α) : List (List α) := chunksAux B l.length l

theorem chunksAux_fuel (B : Nat) (hB : B ≠ 0) :
    ∀ f₁ f₂ (l : List α), l.length ≤ f₁ → l.length ≤ f₂ →
      chunksAux B f₁ l = chunksAux B f₂ l := by
  intro f₁
  induction f₁ with
  | zero =>
    intro f₂ l h₁ _
    have : l = [] := List.eq_nil_of_length_eq_zero (by omega)
    subst this
    cases f₂ <;> rfl
  | succ g₁ ih =>
    intro f₂ l h₁ h₂
    cases l with
    | nil => cases f₂ <;> rfl
    | cons a t =>
      have hlen : (a :: t).length = t.length + 1 := by simp
      cases f₂ with
      | zero => omega
      | succ g₂ =>
        show chunksAux B (g₁ + 1) (a :: t) = chunksAux B (g₂ + 1) (a :: t)
        simp only [chunksAux, if_neg hB]
        congr 1
        apply ih
        · simp
          omega
        · simp
          omega

theorem chunks_nil (B : Nat) : chunks B ([] : List α) = [] := rfl

theorem chunks_cons (B : Nat) (hB : B ≠ 0) (l : List α) (hl : l ≠ []) :
    chunks B l = l.take B :: chunks B (l.drop B) := by
  cases l with
  | nil => exact absurd rfl hl
  | cons a t =>
    show chunksAux B (t.length + 1) (a :: t) = _
    simp only [chunksAux, if_neg hB]
    congr 1
    apply chunksAux_fuel B hB
    · simp
      omega
    · exact Nat.le_refl _

/-- Every chunk concatenated back, in order, is the original list:
no index is skipped or duplicated. -/
theorem chunks_flatten (B : Nat) (hB : B ≠ 0) (l : List α) :
    (chunks B l).flatten = l := by
  generalize hn : l.length = n
  induction n using Nat.strong_induction_on generalizing l with
  | _ n ih =>
    cases l with
    | nil => simp [chunks_nil]
    | cons a t =>
      have hn' : t.length + 1 = n := by simpa using hn
      rw [chunks_cons B hB (a :: t) (by simp)]
      have hlt : ((a :: t).drop B).length < n := by
        simp
        omega
      rw [List.flatten_cons, ih _ hlt _ rfl, List.take_append_drop]

/-- The chunk sizes: `l.length / B` full chunks of size `B`, then a final
chunk of size `l.length % B` when the length is not a multiple of `B`. -/
theorem chunks_map_length (B : Nat) (hB : B ≠ 0) (l : List α) :
    (chunks B l).map List.length =
      List.replicate (l.length / B) B ++
        (if l.length % B = 0 then [] else [l.length % B]) := by
  generalize hn : l.length = n
  induction n using Nat.strong_induction_on generalizing l with
  | _ n ih =>
    cases l with
    | nil =>
      simp at hn
      subst hn
      simp [chunks_nil, Nat.zero_div, Nat.zero_mod]
    | cons a t =>
      have hn' : t.length + 1 = n := by simpa using hn
      rw [chunks_cons B hB (a :: t) (by simp)]
      have hn1 : 1 ≤ n := by omega
      by_cases hcase : n < B
      · have hdrop : (a :: t).drop B = [] := by
          apply List.drop_eq_nil_of_le
          simp
          omega
        rw [List.map, hdrop, chunks_nil]
        have htake : ((a :: t).take B).length = n := by
          simp [List.length_take]
          omega
        have hdiv : n / B = 0 := Nat.div_eq_of_lt hcase
        have hmod : n % B = n := Nat.mod_eq_of_lt hcase
        have hne : ¬ (n % B = 0) := by omega
        rw [if_neg hne, htake, hdiv]
        simp [hmod]
      · push_neg at hcase
        have hdlen : ((a :: t).drop B).length = n - B := by
          simp [List.length_drop]
          omega
        have hlt : ((a :: t).drop B).length < n := by omega
        rw [List.map, ih _ (by omega) _ hdlen]
        have htake : ((a :: t).take B).length = B := by
          simp [List.length_take]
          omega
        have hdiv : (n - B) / B + 1 = n / B := by
          conv_rhs => rw [show n = (n - B) + B by omega]
          rw [Nat.add_div_right _ (Nat.pos_of_ne_zero hB)]
        have hmod : (n - B) % B = n % B := by
          conv_rhs => rw [show n = (n - B) + B by omega]
          rw [Nat.add_mod_right]
        rw [htake, hmod, ← hdiv, List.replicate_succ]
        simp

/-- Ceiling division, written out: `n / B` rounded up is `(n + B - 1) / B`. -/
theorem ceil_div_eq (B n : Nat) (hB : B ≠ 0) :
    n / B + (if n % B = 0 then 0 else 1) = (n + B - 1) / B := by
  have hBpos : 0 < B := Nat.pos_of_ne_zero hB
  rcases Nat.eq_zero_or_pos n with hn0 | hn0
  · subst hn0
    simp [Nat.div_eq_of_lt (show B - 1 < B by omega)]
  · have hdm := Nat.div_add_mod n B
    have hrlt : n % B < B := Nat.mod_lt _ hBpos
    by_cases h0 : n % B = 0
    · rw [if_pos h0]
      have h1 : n + B - 1 = (B - 1) + B * (n / B) := by omega
      rw [h1, Nat.add_mul_div_left _ _ hBpos,
        Nat.div_eq_of_lt (show B - 1 < B by omega)]
      omega
    · rw [if_neg h0]
      have h2 : B * (n / B + 1) = B * (n / B) + B := by ring
      have h1 : n + B - 1 = (n % B - 1) + B * (n / B + 1) := by
        rw [h2]
        omega
      rw [h1, Nat.add_mul_div_left _ _ hBpos,
        Nat.div_eq_of_lt (show n % B - 1 < B by omega)]
      omega

/-- Number of chunks is the ceiling `(l.length + B - 1) / B`. -/
theorem chunks_length (B : Nat) (hB : B ≠ 0) (l : List α) :
    (chunks B l).length = (l.length + B - 1) / B := by
  have h := congrArg List.length (chunks_map_length B hB l)
  rw [List.length_map] at h
  rw [h, ← ceil_div_eq B l.length hB]
  by_cases h0 : l.length % B = 0 <;> simp [h0]

/-! ## Notebook configuration (the Driver constants) -/

def checkpoint : String := "nvidia/segformer-b0-finetuned-ade-512-512"

def train_batch_size : Nat := 4

def val_batch_size : Nat := 2

def num_epochs : Nat := 5

/-- The peak learning rate, 5e-5, as an exact rational. -/
def peak_lr : ℚ := 5 / 100000

def num_warmup_steps : Nat := 0

def train_subset_size : Nat := 100

def val_subset_size : Nat := 50

def shuffle_seed : Nat := 42

def ignore_index : Nat := 255

def reduce_labels : Bool := false

/-- The training split selection
`dataset["train"].shuffle(seed=42).select(range(100))`: the external
seeded shuffle is an unspecified but fixed permutation-producing
function `hfShuffle`; the subset is the front 100 elements of the
shuffled split. -/
def train_subset (hfShuffle : Nat → List Sample → List Sample)
    (train_split : List Sample) : List Sample :=
  (hfShuffle shuffle_seed train_split).take train_subset_size

/-- The validation split selection
`dataset["validation"].select(range(50))`: the first 50 samples. -/
def val_subset (val_split : List Sample) : List Sample :=
  val_split.take val_subset_size

/-! ## Batch loader passes over sample indices -/

/-- Modelled from the spec: one full pass of the external `DataLoader`
(default `drop_last=False`) over `L` sample indices with batch size
`B`.  When `shuffle` is enabled the pass visits the indices in the
order `order`, a fresh random permutation drawn when iteration begins;
when disabled it visits them in original order. -/
def loaderPass (shuffle : Bool) (order : List Nat) (L B : Nat) :
    List (List Nat) :=
  chunks B (if shuffle then order else List.range L)

/-- The index batches of one unshuffled pass. -/
def loaderBatches (L B : Nat) : List (List Nat) :=
  chunks B (List.range L)

/-- `len(train_loader)`: the number of batches in one pass over the
100-sample training subset at batch size 4. -/
def train_loader_len : Nat :=
  (loaderBatches train_subset_size train_batch_size).length

/-- `num_steps = num_epochs * len(train_loader)`. -/
def num_steps : Nat := num_epochs * train_loader_len

/-! ## Learning-rate schedule -/

/-- Modelled from the spec: the external scheduler
`get_scheduler("linear", ...)` multiplies the base rate by a factor
that rises from 0 to 1 over the warm-up steps and then decays linearly
to exactly 0 at `total` steps (integer subtraction before division,
clamped at 0 below). -/
def linearLambda (warmup total s : Nat) : ℚ :=
  if s < warmup then (s : ℚ) / ((max 1 warmup : Nat) : ℚ)
  else max 0 ((((total : ℤ) - (s : ℤ) : ℤ) : ℚ) /
    (((max 1 ((total : ℤ) - (warmup : ℤ)) : ℤ) : ℚ)))

/-- The learning rate in effect after `s` scheduler steps; the
optimizer applies `lrAfterSteps (k - 1)` at the k-th training step,
since `lr_scheduler.step()` runs after `optimizer.step()`. -/
def lrAfterSteps (s : Nat) : ℚ :=
  peak_lr * linearLambda num_warmup_steps num_steps s

/-! ## The training and validation loops -/

/-- The external collaborators of the loop, kept abstract: the backward
pass gradient of the loss for a batch, the optimizer update rule, the
argmax of the forward logits over the class dimension, and the metric
computation of the external mean-IoU accumulator. -/
structure Framework where
  gradientOf : List ℚ → List (String × Tensor) → List ℚ
  optimizerUpdate : List ℚ → List ℚ → ℚ → List ℚ
  logitsArgmax1 : List ℚ → List (String × Tensor) → Tensor
  computeMetric : List (Tensor × Tensor) → Nat → Nat → Bool → ℚ

/-- `batch["labels"]`. -/
def batchLabels (b : List (String × Tensor)) : Tensor :=
  (b.lookup "labels").getD { shape := [], data := [] }

/-- The mutable state the loop threads along: the learnable weights,
the gradient buffers, and the scheduler step counter. -/
structure RunState where
  weights : List ℚ
  grads : List ℚ
  schedStep : Nat
deriving DecidableEq

/-- One training batch: move to device, forward pass and loss,
`loss.backward()` (gradients accumulate into the existing buffers),
`optimizer.step()` at the currently scheduled rate,
`lr_scheduler.step()`, then `optimizer.zero_grad()`. -/
def trainStep (F : Framework) (st : RunState) (b : List (String × Tensor)) :
    RunState :=
  let g := List.zipWith (· + ·) st.grads (F.gradientOf st.weights b)
  let w := F.optimizerUpdate st.weights g (lrAfterSteps st.schedStep)
  { weights := w, grads := st.weights.map (fun _ => (0 : ℚ)),
    schedStep := st.schedStep + 1 }

/-- The inner training loop over the epoch batches; alongside the final
state it records, for each batch, the gradient buffers as they stand
when `loss.backward()` begins. -/
def trainLoopTrace (F : Framework) :
    List (List (String × Tensor)) → RunState → RunState × List (List ℚ)
  | [], st => (st, [])
  | b :: bs, st =>
    let rest := trainLoopTrace F bs (trainStep F st b)
    (rest.1, st.grads :: rest.2)

/-- One validation batch: move to device, forward under
`torch.no_grad()` (weights, gradient buffers and scheduler counter
untouched), argmax over the class dimension, and `metric.add_batch`. -/
def valStep (F : Framework) (st : RunState × List (Tensor × Tensor))
    (b : List (String × Tensor)) : RunState × List (Tensor × Tensor) :=
  (st.1, st.2 ++ [(F.logitsArgmax1 st.1.weights b, batchLabels b)])

/-- One validation pass: `model.eval()`, `metric.reset()`, the batch
loop, then `metric.compute(num_labels=model.config.num_labels,
ignore_index=255, reduce_labels=False)`.  Takes the accumulator as it
stands when the pass begins; returns the final state, the accumulator,
and the epoch mIoU. -/
def valPass (F : Framework) (numLabels : Nat) (st : RunState)
    (acc : List (Tensor × Tensor)) (vB : List (List (String × Tensor))) :
    RunState × List (Tensor × Tensor) × ℚ :=
  let reset : List (Tensor × Tensor) := []
  let r := vB.foldl (valStep F) (st, reset)
  (r.1, r.2, F.computeMetric r.2 numLabels ignore_index reduce_labels)

/-! ## Console output formatting -/

/-- Four decimal digits with leading zeros, for `d < 10000`. -/
def pad4 (d : Nat) : String :=
  String.mk [Nat.digitChar (d / 1000 % 10), Nat.digitChar (d / 100 % 10),
    Nat.digitChar (d / 10 % 10), Nat.digitChar (d % 10)]

/-- Rounding to 4 decimal places: the nearest integer numerator over
10000, computed as the floor division
(20000 * num + den) / (2 * den), which is the floor of
m * 10000 + 1/2. -/
def round4 (m : ℚ) : ℤ := Int.fdiv (20000 * m.num + m.den) (2 * (m.den : ℤ))

/-- Python fixed-point formatting of a nonnegative rational to 4
decimal places: integer part, a dot, four digits. -/
def format4 (m : ℚ) : String :=
  toString ((round4 m).toNat / 10000) ++ "." ++ pad4 ((round4 m).toNat % 10000)

/-- The prefix of an epoch report line, up to and including the space
before the metric value. -/
def linePre (k total : Nat) : String :=
  "Epoch " ++ toString k ++ "/" ++ toString total ++ " — mIoU: "

/-- The console line the driver prints after epoch `k` of `total`. -/
def epochLine (k total : Nat) (m : ℚ) : String :=
  linePre k total ++ format4 m

/-- The exact line pattern the spec claims: after the prefix, a literal
zero, a dot, and four digits. -/
def matchesClaimedPattern (k total : Nat) (s : String) : Prop :=
  ∃ d : Nat, d < 10000 ∧ s = linePre k total ++ ("0." ++ pad4 d)

/-! ## The driver run -/

/-- Everything the driver run accumulates: the threaded loop state, the
metric accumulator, every line printed so far, the mIoU of each
completed epoch, and the gradient buffers observed at the start of
every backward pass. -/
structure RunAcc where
  st : RunState
  metricAcc : List (Tensor × Tensor)
  lines : List String
  mious : List ℚ
  gradTraces : List (List ℚ)

/-- The model configuration object: `model.config.num_labels`. -/
structure ModelConfig where
  num_labels : Nat

/-- One epoch of the driver loop: all training batches, then the
validation pass (with the class count taken from the model
configuration), then the print.  `e` is the 0-based epoch counter. -/
def runEpoch (F : Framework) (cfg : ModelConfig)
    (tB vB : List (List (String × Tensor))) (e total : Nat) (a : RunAcc) :
    RunAcc :=
  let tr := trainLoopTrace F tB a.st
  let v := valPass F cfg.num_labels tr.1 a.metricAcc vB
  { st := v.1, metricAcc := v.2.1,
    lines := a.lines ++ [epochLine (e + 1) total v.2.2],
    mious := a.mious ++ [v.2.2],
    gradTraces := a.gradTraces ++ tr.2 }

/-- Run `k` more epochs of the driver loop, starting at 0-based epoch
`e` (the loop `for epoch in range(num_epochs)`). -/
def runEpochsFrom (F : Framework) (cfg : ModelConfig)
    (tB vB : List (List (String × Tensor))) (total : Nat) :
    Nat → Nat → RunAcc → RunAcc
  | 0, _, a => a
  | k + 1, e, a =>
    runEpochsFrom F cfg tB vB total k (e + 1)
      (runEpoch F cfg tB vB e total a)

/-- A fresh start: weights from the checkpoint, gradient buffers clear,
scheduler at step 0, empty metric accumulator, nothing printed. -/
def initRun (w0 : List ℚ) : RunAcc :=
  { st := { weights := w0, grads := w0.map (fun _ => 0), schedStep := 0 },
    metricAcc := [], lines := [], mious := [], gradTraces := [] }

/-- The full driver run: `num_epochs` epochs of
train-then-validate-then-print over fixed train and validation batch
sequences. -/
def driverRun (F : Framework) (cfg : ModelConfig)
    (tB vB : List (List (String × Tensor))) (w0 : List ℚ) : RunAcc :=
  runEpochsFrom F cfg tB vB num_epochs num_epochs 0 (initRun w0)

/-- The report lines for consecutive epochs starting at epoch `k`, one
per metric value. -/
def linesFrom (total k : Nat) : List ℚ → List String
  | [] => []
  | m :: ms => epochLine k total m :: linesFrom total (k + 1) ms

/-! ## Concrete instances used as test vectors -/

/-- The encoder adds a leading singleton batch dimension to each
returned tensor (encoding is done one sample at a time). -/
def addBatchDim (t : Tensor) : Tensor := { shape := 1 :: t.shape, data := t.data }

/-- A concrete encoder configuration with the two SegFormer keys: the
image tensor under "pixel_values", the mask under "labels", each with
the singleton batch dimension added. -/
def cxProcessor : Processor :=
  { keys := ["pixel_values", "labels"],
    encodeTensor := fun s k =>
      if k = "labels" then addBatchDim s.segmentation_mask
      else addBatchDim s.image }

/-- A 2x2 single-channel image (channel dimension of size 1) with its
2x2 mask. -/
def cxSample1 : Sample :=
  { image := { shape := [1, 2, 2], data := [7, 8, 9, 10] },
    segmentation_mask := { shape := [2, 2], data := [0, 1, 2, 3] } }

def cxSample2 : Sample :=
  { image := { shape := [1, 2, 2], data := [1, 2, 3, 4] },
    segmentation_mask := { shape := [2, 2], data := [4, 5, 6, 7] } }

def cxDataset : SegmentationDataset :=
  { ds := [cxSample1, cxSample2], processor := cxProcessor }

/-! ## Helper lemmas about the loops -/

/-- Folding the validation batch step leaves the loop state untouched
and appends one (prediction, reference) pair per batch, in order. -/
theorem valStep_foldl (F : Framework) (vB : List (List (String × Tensor))) :
    ∀ (st : RunState) (acc : List (Tensor × Tensor)),
      vB.foldl (valStep F) (st, acc) =
        (st, acc ++ vB.map (fun b => (F.logitsArgmax1 st.weights b, batchLabels b))) := by
  induction vB with
  | nil =>
    intro st acc
    simp
  | cons b bs ih =>
    intro st acc
    simp only [List.foldl_cons, List.map_cons]
    rw [show valStep F (st, acc) b =
      (st, acc ++ [(F.logitsArgmax1 st.weights b, batchLabels b)]) from rfl]
    rw [ih]
    simp

/-- The keys of an adapter item are exactly the processor keys. -/
theorem getitem_keys (d : SegmentationDataset) (item : Sample) :
    (((d.processor.encode item).map (fun kv => (kv.1, kv.2.squeeze))).map Prod.fst) =
      d.processor.keys := by
  simp only [Processor.encode, List.map_map]
  exact List.map_id'' (fun k => rfl) d.processor.keys

/-! ## Claim theorems -/

/-- C1: a validation pass executed with no intervening training step
never mutates any learnable model weight: the weights snapshot after
`valPass` equals, bit for bit, the snapshot before it (indeed the whole
threaded loop state, gradient buffers and scheduler counter included,
is unchanged: the pass runs forward only, under disabled gradient
tracking, and never invokes the optimizer update). -/
theorem C1_validation_never_mutates_weights (F : Framework) (numLabels : Nat)
    (st : RunState) (acc : List (Tensor × Tensor))
    (vB : List (List (String × Tensor))) :
    (valPass F numLabels st acc vB).1.weights = st.weights
    ∧ (valPass F numLabels st acc vB).1 = st := by
  have h := valStep_foldl F vB st []
  constructor
  · simp only [valPass, h]
  · simp only [valPass, h]

/-- C5: for any two valid indices of the same adapter instance, the
mappings returned by `__getitem__` have identical key lists (the
processor's configured keys), independent of the data at the index. -/
theorem C5_stable_key_sets (d : SegmentationDataset) (i j : Nat)
    (mi mj : List (String × Tensor))
    (hi : d.getitem i = some mi) (hj : d.getitem j = some mj) :
    mi.map Prod.fst = mj.map Prod.fst
    ∧ mi.map Prod.fst = d.processor.keys := by
  rw [SegmentationDataset.getitem] at hi hj
  cases hdi : d.ds[i]? with
  | none => rw [hdi] at hi; cases hi
  | some itemi =>
    cases hdj : d.ds[j]? with
    | none => rw [hdj] at hj; cases hj
    | some itemj =>
      rw [hdi] at hi
      rw [hdj] at hj
      have hmi := Option.some.inj hi
      have hmj := Option.some.inj hj
      rw [← hmi, ← hmj, getitem_keys, getitem_keys]
      exact ⟨rfl, rfl⟩

/-- C5 witness: the adapter over the two concrete samples returns the
same key list at index 0 and index 1. -/
theorem C5_stable_key_sets_witness :
    ((cxDataset.processor.encode cxSample1).map
        (fun kv => (kv.1, kv.2.squeeze))).map Prod.fst =
      ((cxDataset.processor.encode cxSample2).map
        (fun kv => (kv.1, kv.2.squeeze))).map Prod.fst :=
  (C5_stable_key_sets cxDataset 0 1 _ _ (by decide) (by decide)).1

/-- C6: the driver configuration is fixed: the pretrained checkpoint
identifier, training batch size 4, validation batch size 2, 5 epochs,
peak learning rate 5e-5 with the linear schedule at zero warm-up
steps, a training subset of the first 100 samples of the seed-42
shuffle of the train partition, and a validation subset of the first
50 samples of the validation partition. -/
theorem C6_driver_configuration :
    checkpoint = "nvidia/segformer-b0-finetuned-ade-512-512"
    ∧ train_batch_size = 4
    ∧ val_batch_size = 2
    ∧ num_epochs = 5
    ∧ peak_lr = 5 / 100000
    ∧ num_warmup_steps = 0
    ∧ (∀ s : Nat, lrAfterSteps s = peak_lr * linearLambda 0 num_steps s)
    ∧ shuffle_seed = 42
    ∧ (∀ (f : Nat → List Sample → List Sample) (split : List Sample),
        train_subset f split = (f 42 split).take 100)
    ∧ (∀ split : List Sample, val_subset split = split.take 50) :=
  ⟨rfl, rfl, rfl, rfl, rfl, rfl, fun _ => rfl, rfl,
    fun _ _ => rfl, fun _ => rfl⟩

/-- C8: with the shuffle flag disabled a loader pass is one fixed
sequence of batches, identical across repeated passes whatever random
orders are drawn; with shuffle enabled the pass follows the fresh
permutation drawn at iteration start, and two passes over the same
loader may, but need not, yield different batch orderings. -/
theorem C8_shuffle_orderings :
    (∀ (order1 order2 : List Nat) (L B : Nat),
        loaderPass false order1 L B = loaderPass false order2 L B)
    ∧ (∃ p1 p2 : List Nat, p1.Perm (List.range 4) ∧ p2.Perm (List.range 4) ∧
        loaderPass true p1 4 2 ≠ loaderPass true p2 4 2)
    ∧ (∃ p1 p2 : List Nat, p1.Perm (List.range 4) ∧ p2.Perm (List.range 4) ∧
        loaderPass true p1 4 2 = loaderPass true p2 4 2) :=
  ⟨fun _ _ _ _ => rfl,
    ⟨[1, 0, 2, 3], [0, 1, 2, 3], by decide, by decide, by decide⟩,
    ⟨[0, 1, 2, 3], [0, 1, 2, 3], by decide, by decide, rfl⟩⟩

/-- C9: the metric accumulator is reset at the start of every
validation pass, so the pass result is independent of whatever the
accumulator held before and the computed metric aggregates exactly
this pass's (prediction, reference) pairs; the final compute call is
parameterized by the class count taken from the model configuration,
ignore-index 255, and reduce-labels false. -/
theorem C9_metric_reset_and_compute_params :
    (∀ (F : Framework) (nl : Nat) (st : RunState)
        (acc acc2 : List (Tensor × Tensor)) (vB : List (List (String × Tensor))),
        valPass F nl st acc vB = valPass F nl st acc2 vB)
    ∧ (∀ (F : Framework) (nl : Nat) (st : RunState)
        (acc : List (Tensor × Tensor)) (vB : List (List (String × Tensor))),
        (valPass F nl st acc vB).2.1 =
          vB.map (fun b => (F.logitsArgmax1 st.weights b, batchLabels b))
        ∧ (valPass F nl st acc vB).2.2 =
            F.computeMetric
              (vB.map (fun b => (F.logitsArgmax1 st.weights b, batchLabels b)))
              nl 255 false)
    ∧ (∀ (F : Framework) (cfg : ModelConfig)
        (tB vB : List (List (String × Tensor))) (e total : Nat) (a : RunAcc),
        (runEpoch F cfg tB vB e total a).mious =
          a.mious ++
            [(valPass F cfg.num_labels (trainLoopTrace F tB a.st).1
              a.metricAcc vB).2.2])
    ∧ ignore_index = 255 ∧ reduce_labels = false := by
  refine ⟨fun F nl st acc acc2 vB => rfl, ?_, fun F cfg tB vB e total a => rfl,
    rfl, rfl⟩
  intro F nl st acc vB
  have h := valStep_foldl F vB st []
  constructor
  · simp only [valPass, h]
    simp
  · simp only [valPass, h]
    simp [ignore_index, reduce_labels]

/-- C2: one full pass of the batch loader over a dataset of length
L > 0 with batch size B > 0 yields exactly ceil(L/B) batches; each of
the first L / B batches holds exactly B samples, the final batch holds
L % B samples (or exactly B when L % B = 0), and the concatenation of
all yielded batches is exactly the index range, so no sample index is
skipped or duplicated. -/
theorem C2_loader_pass_batching (L B : Nat) (hL : 0 < L) (hB : 0 < B) :
    (loaderBatches L B).length = (L + B - 1) / B
    ∧ (∀ i, i < L / B → ((loaderBatches L B).map List.length)[i]? = some B)
    ∧ ((loaderBatches L B).map List.length).getLast? =
        some (if L % B = 0 then B else L % B)
    ∧ (loaderBatches L B).flatten = List.range L
    ∧ (∀ order : List Nat, order.Perm (List.range L) →
        (loaderPass true order L B).flatten.Perm (List.range L)
        ∧ (loaderPass true order L B).length = (L + B - 1) / B) := by
  have hB' : B ≠ 0 := Nat.pos_iff_ne_zero.mp hB
  have hmap := chunks_map_length B hB' (List.range L)
  rw [List.length_range] at hmap
  refine ⟨?_, ?_, ?_, ?_, ?_⟩
  · rw [loaderBatches, chunks_length B hB', List.length_range]
  · intro i hi
    rw [loaderBatches, hmap, List.getElem?_append_left (by simpa using hi)]
    simp [List.getElem?_replicate, hi]
  · rw [loaderBatches, hmap]
    by_cases h0 : L % B = 0
    · rw [if_pos h0] at *
      have hq : 0 < L / B := by
        rcases Nat.eq_zero_or_pos (L / B) with hq0 | hq0
        · have hdm := Nat.div_add_mod L B
          rw [hq0, Nat.mul_zero, Nat.zero_add, h0] at hdm
          omega
        · exact hq0
      obtain ⟨k, hk⟩ := Nat.exists_eq_add_of_lt hq
      rw [hk, Nat.zero_add, List.append_nil, List.replicate_succ',
        List.getLast?_concat, if_pos h0]
    · rw [if_neg h0] at *
      rw [List.getLast?_concat, if_neg h0]
  · rw [loaderBatches, chunks_flatten B hB']
  · intro order hperm
    have hlen : order.length = L := by
      rw [hperm.length_eq, List.length_range]
    constructor
    · rw [loaderPass, if_pos rfl, chunks_flatten B hB']
      exact hperm
    · rw [loaderPass, if_pos rfl, chunks_length B hB', hlen]

/-- C2 witness: the loader pass at L = 10, B = 4 yields 3 batches
covering the range 0..9 exactly, and a shuffled pass over a concrete
permutation of 4 indices at B = 2 covers all 4 indices. -/
theorem C2_loader_pass_batching_witness :
    (loaderBatches 10 4).length = (10 + 4 - 1) / 4
    ∧ (loaderBatches 10 4).flatten = List.range 10
    ∧ (loaderPass true [1, 0, 2, 3] 4 2).flatten.Perm (List.range 4) :=
  ⟨(C2_loader_pass_batching 10 4 (by decide) (by decide)).1,
    (C2_loader_pass_batching 10 4 (by decide) (by decide)).2.2.2.1,
    ((C2_loader_pass_batching 4 2 (by decide) (by decide)).2.2.2.2
      [1, 0, 2, 3] (by decide)).1⟩

/-- C3: with training subset size 100, batch size 4 and 5 epochs, the
total number of training steps is 5 * ceil(100/4) = 125; the linear
zero-warm-up schedule yields the full peak rate 5e-5 before the first
optimizer step (so training step 1 runs at 5e-5), stays strictly
positive through every step below 125, and reaches exactly 0 at
scheduler step 125. -/
theorem C3_schedule_endpoints :
    num_steps = 125
    ∧ num_steps =
        num_epochs * ((train_subset_size + train_batch_size - 1) / train_batch_size)
    ∧ lrAfterSteps 0 = peak_lr
    ∧ lrAfterSteps num_steps = 0
    ∧ (∀ s : Nat, s < num_steps → 0 < lrAfterSteps s) := by
  have h125 : num_steps = 125 := by decide
  refine ⟨h125, by decide, ?_, ?_, ?_⟩
  · rw [lrAfterSteps, h125]
    have h1 : linearLambda num_warmup_steps 125 0 = 1 := by
      rw [linearLambda, num_warmup_steps]
      norm_num
    rw [h1, mul_one]
  · rw [lrAfterSteps, h125]
    have h1 : linearLambda num_warmup_steps 125 125 = 0 := by
      rw [linearLambda, num_warmup_steps]
      norm_num
    rw [h1, mul_zero]
  · intro s hs
    rw [h125] at hs
    rw [lrAfterSteps, h125, linearLambda, num_warmup_steps]
    rw [if_neg (by omega)]
    apply mul_pos (show (0 : ℚ) < peak_lr by norm_num [peak_lr])
    apply lt_max_iff.mpr
    right
    apply div_pos
    · exact_mod_cast (show (0 : ℤ) < ((125 : ℕ) : ℤ) - (s : ℤ) by
        push_cast
        omega)
    · exact_mod_cast
        (show (0 : ℤ) < max 1 (((125 : ℕ) : ℤ) - ((0 : ℕ) : ℤ)) from
          lt_max_iff.mpr (Or.inl one_pos))

/-- C3 witness: the last training step, step 125, still runs at the
strictly positive rate scheduled after 124 scheduler steps. -/
theorem C3_schedule_endpoints_witness : 0 < lrAfterSteps 124 :=
  C3_schedule_endpoints.2.2.2.2 124 (by decide)

/-- C4 counterexample: at index 0 the encoder returns the pixel-values
tensor with shape 1 :: [1, 2, 2], a singleton batch dimension in front
of a singleton channel dimension.  Stripping only the batch dimension
would leave [1, 2, 2], but `__getitem__` produces shape [2, 2]: the
parameterless `squeeze()` also removed the channel dimension, so a
dimension other than the batch dimension was changed. -/
theorem C4_counterexample :
    (cxDataset.processor.encodeTensor cxSample1 "pixel_values").shape
        = 1 :: [1, 2, 2]
    ∧ (cxDataset.getitem 0).map (fun l => l.map (fun kv => (kv.1, kv.2.shape)))
        = some [("pixel_values", [2, 2]), ("labels", [2, 2])]
    ∧ ([2, 2] : List Nat) ≠ [1, 2, 2] := by
  refine ⟨by decide, by decide, by decide⟩

/-- C4 (amended): `__getitem__` squeezes every tensor of the encoded
mapping, which strips all its singleton dimensions, the added batch
dimension among them; exactly the batch dimension is stripped, with
all other dimensions unchanged, precisely when no other dimension
equals 1. -/
theorem C4_squeeze_strips_singletons (d : SegmentationDataset) (idx : Nat)
    (item : Sample) (h : d.ds[idx]? = some item) :
    d.getitem idx =
      some ((d.processor.encode item).map (fun kv => (kv.1, kv.2.squeeze)))
    ∧ (∀ (t : Tensor) (rest : List Nat), t.shape = 1 :: rest →
        t.squeeze.shape = rest.filter (fun x => x != 1))
    ∧ (∀ (t : Tensor) (rest : List Nat), t.shape = 1 :: rest → ¬ (1 ∈ rest) →
        t.squeeze.shape = rest) := by
  refine ⟨?_, ?_, ?_⟩
  · rw [SegmentationDataset.getitem, h]
  · intro t rest ht
    simp [Tensor.squeeze, ht]
  · intro t rest ht hmem
    simp only [Tensor.squeeze, ht, List.filter_cons]
    simp only [show ((1 : Nat) != 1) = false from rfl, Bool.false_eq_true,
      if_false]
    exact List.filter_eq_self.mpr (fun a ha => by
      have hne : a ≠ 1 := fun he => hmem (he ▸ ha)
      simp [hne])

/-- C4 witness: on the concrete adapter, `__getitem__` at index 0 is
the squeezed encoding of the first sample, and squeezing a tensor of
shape 1 :: [2, 2] (no singleton dimension besides the batch one)
yields exactly [2, 2]. -/
theorem C4_squeeze_strips_singletons_witness :
    cxDataset.getitem 0 =
      some ((cxDataset.processor.encode cxSample1).map
        (fun kv => (kv.1, kv.2.squeeze)))
    ∧ (Tensor.squeeze { shape := 1 :: [2, 2], data := [0, 0, 0, 0] }).shape
        = [2, 2] :=
  ⟨(C4_squeeze_strips_singletons cxDataset 0 cxSample1 (by decide)).1,
    (C4_squeeze_strips_singletons cxDataset 0 cxSample1 (by decide)).2.2
      _ [2, 2] rfl (by decide)⟩

/-! ## C7 machinery: the printed report -/

/-- The validation pass leaves the threaded loop state untouched. -/
theorem valPass_fst (F : Framework) (nl : Nat) (st : RunState)
    (acc : List (Tensor × Tensor)) (vB : List (List (String × Tensor))) :
    (valPass F nl st acc vB).1 = st := by
  simp only [valPass, valStep_foldl]

/-- Each epoch of the driver appends exactly one report line, so `k`
epochs from epoch `e` append the lines for epochs e+1, ..., e+k, each
formed from that epoch's mIoU. -/
theorem runEpochsFrom_lines (F : Framework) (cfg : ModelConfig)
    (tB vB : List (List (String × Tensor))) (total : Nat) :
    ∀ (k e : Nat) (a : RunAcc), ∃ ms : List ℚ, ms.length = k ∧
      (runEpochsFrom F cfg tB vB total k e a).lines =
        a.lines ++ linesFrom total (e + 1) ms := by
  intro k
  induction k with
  | zero =>
    intro e a
    exact ⟨[], rfl, by simp [runEpochsFrom, linesFrom]⟩
  | succ n ih =>
    intro e a
    obtain ⟨ms, hlen, hlines⟩ := ih (e + 1) (runEpoch F cfg tB vB e total a)
    refine ⟨(valPass F cfg.num_labels (trainLoopTrace F tB a.st).1
      a.metricAcc vB).2.2 :: ms, by simp [hlen], ?_⟩
    rw [show runEpochsFrom F cfg tB vB total (n + 1) e a =
      runEpochsFrom F cfg tB vB total n (e + 1)
        (runEpoch F cfg tB vB e total a) from rfl]
    rw [hlines]
    rw [show (runEpoch F cfg tB vB e total a).lines =
      a.lines ++ [epochLine (e + 1) total
        (valPass F cfg.num_labels (trainLoopTrace F tB a.st).1
          a.metricAcc vB).2.2] from rfl]
    rw [linesFrom]
    simp

/-- C7 counterexample: the mIoU value 1 lies in [0, 1], and the epoch
line printed for it reads "Epoch 1/5 — mIoU: 1.0000", which does not
match the claimed pattern of a literal 0, a dot, and four digits in
the metric field. -/
theorem C7_counterexample :
    ((0 : ℚ) ≤ 1 ∧ (1 : ℚ) ≤ 1)
    ∧ epochLine 1 5 1 = "Epoch 1/5 — mIoU: 1.0000"
    ∧ ¬ matchesClaimedPattern 1 5 (epochLine 1 5 1) := by
  have hline : epochLine 1 5 1 = "Epoch 1/5 — mIoU: 1.0000" := by decide
  have hpre : linePre 1 5 = "Epoch 1/5 — mIoU: " := by decide
  refine ⟨⟨by decide, le_refl 1⟩, hline, ?_⟩
  rintro ⟨d, _hd, hpat⟩
  rw [hline, hpre] at hpat
  have h2 := congrArg String.data hpat
  rw [String.data_append, String.data_append] at h2
  have h3 : ("Epoch 1/5 — mIoU: 1.0000".data)[18]? =
      ("Epoch 1/5 — mIoU: ".data ++ ("0.".data ++ (pad4 d).data))[18]? := by
    rw [h2]
  rw [List.getElem?_append_right (by decide),
    List.getElem?_append_left (by decide)] at h3
  exact absurd h3 (by decide)

/-- C7 (amended): a complete run prints exactly `num_epochs` = 5
lines, one per epoch in order, the k-th being the epoch line for k of
5 formed from that epoch's mIoU formatted to 4 decimal places; a line
matches the claimed 0.XXXX pattern exactly when the rounded metric
field stays below 1.0000 (at mIoU values that round to 1 the field
reads 1.0000 instead). -/
theorem C7_report_lines :
    (∀ (F : Framework) (cfg : ModelConfig)
        (tB vB : List (List (String × Tensor))) (w0 : List ℚ),
        ∃ ms : List ℚ, ms.length = num_epochs ∧
          (driverRun F cfg tB vB w0).lines = linesFrom num_epochs 1 ms)
    ∧ (∀ (k total : Nat) (m : ℚ), 0 ≤ round4 m → (round4 m).toNat < 10000 →
        matchesClaimedPattern k total (epochLine k total m)) := by
  constructor
  · intro F cfg tB vB w0
    obtain ⟨ms, hlen, hlines⟩ :=
      runEpochsFrom_lines F cfg tB vB num_epochs num_epochs 0 (initRun w0)
    exact ⟨ms, hlen, by rw [driverRun, hlines]; simp [initRun]⟩
  · intro k total m _h0 hlt
    refine ⟨(round4 m).toNat, hlt, ?_⟩
    rw [epochLine, format4, Nat.div_eq_of_lt hlt, Nat.mod_eq_of_lt hlt]
    rw [show (toString (0 : ℕ) ++ "." : String) = "0." from rfl]

/-- C7 witness: the epoch line for the in-range metric value 0 matches
the claimed pattern. -/
theorem C7_report_lines_witness :
    matchesClaimedPattern 1 5 (epochLine 1 5 0) :=
  C7_report_lines.2 1 5 0 (by decide) (by decide)

/-! ## C10 machinery: gradient buffers -/

/-- Through the inner training loop, if the gradient buffers are all
zero on entry then they are all zero at the start of every backward
pass and on exit: `optimizer.zero_grad()` runs last in every
iteration. -/
theorem trainLoopTrace_grads (F : Framework) :
    ∀ (bs : List (List (String × Tensor))) (st : RunState),
      (∀ g ∈ st.grads, g = 0) →
      (∀ tr ∈ (trainLoopTrace F bs st).2, ∀ g ∈ tr, g = 0)
      ∧ (∀ g ∈ (trainLoopTrace F bs st).1.grads, g = 0) := by
  intro bs
  induction bs with
  | nil =>
    intro st h
    exact ⟨by simp [trainLoopTrace], by simpa [trainLoopTrace] using h⟩
  | cons b bs ih =>
    intro st h
    have hzero : ∀ g ∈ (trainStep F st b).grads, g = 0 := by
      intro g hg
      simp only [trainStep, List.mem_map] at hg
      obtain ⟨_, _, hg0⟩ := hg
      exact hg0.symm
    obtain ⟨h1, h2⟩ := ih (trainStep F st b) hzero
    refine ⟨?_, by simpa [trainLoopTrace] using h2⟩
    intro tr htr
    simp only [trainLoopTrace] at htr
    rcases List.mem_cons.mp htr with hhd | htl
    · exact hhd ▸ h
    · exact h1 tr htl

/-- One driver epoch preserves all-zero gradient buffers and appends
only all-zero backward-entry traces: validation runs under disabled
gradient tracking and never touches the buffers. -/
theorem runEpoch_grads (F : Framework) (cfg : ModelConfig)
    (tB vB : List (List (String × Tensor))) (e total : Nat) (a : RunAcc)
    (h : ∀ g ∈ a.st.grads, g = 0)
    (htr : ∀ tr ∈ a.gradTraces, ∀ g ∈ tr, g = 0) :
    (∀ g ∈ (runEpoch F cfg tB vB e total a).st.grads, g = 0)
    ∧ (∀ tr ∈ (runEpoch F cfg tB vB e total a).gradTraces, ∀ g ∈ tr, g = 0) := by
  obtain ⟨h1, h2⟩ := trainLoopTrace_grads F tB a.st h
  constructor
  · show ∀ g ∈ (valPass F cfg.num_labels (trainLoopTrace F tB a.st).1
      a.metricAcc vB).1.grads, g = 0
    rw [valPass_fst]
    exact h2
  · intro tr htr'
    rcases List.mem_append.mp htr' with hca | hcb
    · exact htr tr hca
    · exact h1 tr hcb

theorem runEpochsFrom_grads (F : Framework) (cfg : ModelConfig)
    (tB vB : List (List (String × Tensor))) (total : Nat) :
    ∀ (k e : Nat) (a : RunAcc),
      (∀ g ∈ a.st.grads, g = 0) →
      (∀ tr ∈ a.gradTraces, ∀ g ∈ tr, g = 0) →
      ∀ tr ∈ (runEpochsFrom F cfg tB vB total k e a).gradTraces,
        ∀ g ∈ tr, g = 0 := by
  intro k
  induction k with
  | zero =>
    intro e a _ htr
    exact htr
  | succ n ih =>
    intro e a h htr
    obtain ⟨h1, h2⟩ := runEpoch_grads F cfg tB vB e total a h htr
    exact ih (e + 1) (runEpoch F cfg tB vB e total a) h1 h2

/-- C10: in every epoch of the full driver run, the accumulated
gradients of all learnable weights are zero when each training batch's
backward pass begins: the loop clears the buffers right after every
optimizer and scheduler step, the model starts with clear buffers, and
validation runs under disabled gradient tracking, so nothing carries
over from a previous batch or from validation. -/
theorem C10_gradients_zero_at_backward (F : Framework) (cfg : ModelConfig)
    (tB vB : List (List (String × Tensor))) (w0 : List ℚ) :
    ∀ tr ∈ (driverRun F cfg tB vB w0).gradTraces, ∀ g ∈ tr, g = 0 := by
  apply runEpochsFrom_grads
  · intro g hg
    simp only [initRun, List.mem_map] at hg
    obtain ⟨_, _, hg0⟩ := hg
    exact hg0.symm
  · intro tr htr
    simp [initRun] at htr

/-- A minimal concrete framework whose external operations do not
inspect their numeric arguments, used to exercise the driver run. -/
def cxFramework : Framework :=
  { gradientOf := fun _ _ => [],
    optimizerUpdate := fun w _ _ => w,
    logitsArgmax1 := fun _ _ => { shape := [], data := [] },
    computeMetric := fun _ _ _ _ => 0 }

def cxBatch : List (String × Tensor) :=
  [("labels", { shape := [2, 2], data := [0, 1, 2, 3] })]

/-- C10 witness: in the concrete driver run over one training batch
per epoch from a one-weight model, the buffer list observed at a
backward entry is among the recorded traces, and its entry is zero. -/
theorem C10_gradients_zero_at_backward_witness :
    [(0 : ℚ)] ∈
      (driverRun cxFramework ⟨150⟩ [cxBatch] [cxBatch] [(0 : ℚ)]).gradTraces
    ∧ (0 : ℚ) = 0 :=
  ⟨by decide,
    C10_gradients_zero_at_backward cxFramework ⟨150⟩ [cxBatch] [cxBatch]
      [(0 : ℚ)] [(0 : ℚ)] (by decide) (0 : ℚ) (by decide)⟩

end SegTrain
